import Mathlib

/-!
Verification of the OpenBR Universal Template record format
(src/openbr/universal_template.h) against its natural-language
specification.

The header declares `struct br_universal_template` (a 48-byte fixed
header: 16-byte `imageID`, then eight 4-byte integers `algorithmID`,
`x`, `y`, `width`, `height`, `label`, `urlSize`, `fvSize`, followed by
a `urlSize + fvSize`-byte flexible `data` member) and the operations
`br_new_utemplate`, `br_append_utemplate`, `br_iterate_utemplates` and
`br_iterate_utemplates_file`.  The implementations of the operations
live in `universal_template.cpp`, which is not part of the provided
sources; they are modelled here from the specification.  The record
layout itself is taken from the struct declaration in the header.

Bytes are modelled as `Fin 256`; multi-byte integers are serialized in
a fixed (little-endian) byte order, standing in for the host's native
order, which the format leaves unspecified.
-/

abbrev Byte := Fin 256

/-- Serialize an unsigned 32-bit value (a `Nat` less than `2^32`) into its
four bytes, least significant first. -/
def u32ToBytes (n : Nat) : List Byte :=
  [⟨n % 256, Nat.mod_lt _ (by norm_num)⟩,
   ⟨n / 256 % 256, Nat.mod_lt _ (by norm_num)⟩,
   ⟨n / 65536 % 256, Nat.mod_lt _ (by norm_num)⟩,
   ⟨n / 16777216 % 256, Nat.mod_lt _ (by norm_num)⟩]

/-- Read an unsigned 32-bit value from four bytes, least significant
first. -/
def bytesToU32 (b0 b1 b2 b3 : Byte) : Nat :=
  b0.val + 256 * b1.val + 65536 * b2.val + 16777216 * b3.val

/-- The unsigned 32-bit two's-complement image of a signed 32-bit value. -/
def i32AsU32 (a : Int) : Nat := (a % 4294967296).toNat

/-- Recover a signed 32-bit value from its two's-complement unsigned
image. -/
def u32AsI32 (n : Nat) : Int :=
  if n < 2147483648 then (n : Int) else (n : Int) - 4294967296

/-- Read a `uint32` from the first four bytes of a byte list (0 when fewer
than four bytes are available; the scanner never relies on that case). -/
def readU32 (bs : List Byte) : Nat :=
  match bs with
  | b0 :: b1 :: b2 :: b3 :: _ => bytesToU32 b0 b1 b2 b3
  | _ => 0

/-- One universal template record, mirroring `struct br_universal_template`
from src/openbr/universal_template.h lines 36-51: a 16-byte `imageID`,
signed `algorithmID`, unsigned `x`, `y`, `width`, `height`, `label`,
`urlSize`, `fvSize`, and the trailing `data` buffer of `urlSize + fvSize`
bytes. -/
structure UTemplate where
  imageID : List Byte
  algorithmID : Int
  x : Nat
  y : Nat
  width : Nat
  height : Nat
  label : Nat
  urlSize : Nat
  fvSize : Nat
  data : List Byte
  deriving DecidableEq, Repr

/-- The fixed header length of a record: 16 bytes of `imageID` plus eight
4-byte integers. -/
def fixedHeaderLength : Nat := 48

/-- The total serialized size of a record:
`fixedHeaderLength + urlSize + fvSize`. -/
def totalRecordSize (t : UTemplate) : Nat :=
  fixedHeaderLength + t.urlSize + t.fvSize

/-- A record is well formed when the `imageID` has exactly 16 bytes, each
integer field fits its declared 32-bit type, and `data` holds exactly
`urlSize + fvSize` bytes. -/
def ValidRecord (t : UTemplate) : Prop :=
  t.imageID.length = 16 ∧
  -2147483648 ≤ t.algorithmID ∧ t.algorithmID < 2147483648 ∧
  t.x < 4294967296 ∧ t.y < 4294967296 ∧
  t.width < 4294967296 ∧ t.height < 4294967296 ∧
  t.label < 4294967296 ∧
  t.urlSize < 4294967296 ∧ t.fvSize < 4294967296 ∧
  t.data.length = t.urlSize + t.fvSize

instance (t : UTemplate) : Decidable (ValidRecord t) := by
  unfold ValidRecord; infer_instance

/-- The fixed 48-byte header image of a record, fields in declaration
order with no padding. -/
def encodeHeader (t : UTemplate) : List Byte :=
  t.imageID ++ u32ToBytes (i32AsU32 t.algorithmID) ++
  u32ToBytes t.x ++ u32ToBytes t.y ++
  u32ToBytes t.width ++ u32ToBytes t.height ++
  u32ToBytes t.label ++ u32ToBytes t.urlSize ++ u32ToBytes t.fvSize

/-- The full byte image of a record: fixed header, then the
`urlSize + fvSize` payload bytes, nothing else. -/
def encodeRecord (t : UTemplate) : List Byte :=
  encodeHeader t ++ t.data

/-- A stream of records: boundary-aligned concatenation with no
separators, counts or trailers. -/
def encodeStream (ts : List UTemplate) : List Byte :=
  (ts.map encodeRecord).flatten

/-- Modelled from the spec: the decode step of the scanner in
`universal_template.cpp` (not under src/).  Given the remaining bytes,
fail unless at least the fixed header is available and the declared
`fixedHeaderLength + urlSize + fvSize` bytes all lie inside the buffer;
on success return the decoded record and the remaining suffix, located
solely via the record's declared total size. -/
def decodeRecord (bs : List Byte) : Option (UTemplate × List Byte) :=
  if bs.length < fixedHeaderLength then none
  else
    let urlSize := readU32 (bs.drop 40)
    let fvSize := readU32 (bs.drop 44)
    if bs.length < fixedHeaderLength + urlSize + fvSize then none
    else some
      ({ imageID := bs.take 16
       , algorithmID := u32AsI32 (readU32 (bs.drop 16))
       , x := readU32 (bs.drop 20)
       , y := readU32 (bs.drop 24)
       , width := readU32 (bs.drop 28)
       , height := readU32 (bs.drop 32)
       , label := readU32 (bs.drop 36)
       , urlSize := urlSize
       , fvSize := fvSize
       , data := (bs.drop 48).take (urlSize + fvSize) },
       bs.drop (fixedHeaderLength + urlSize + fvSize))

/-- Terminal states of the scanner's iteration state machine. -/
inductive ScanState where
  | endReached : ScanState
  | corruption : ScanState
  deriving DecidableEq, Repr

/-- Modelled from the spec: the sequential scan loop of
`br_iterate_utemplates` in `universal_template.cpp` (not under src/).
Structural recursion on a fuel argument; each decoded record consumes at
least 48 bytes, so fuel equal to the buffer length (as supplied by
`br_iterate_utemplates`) always suffices and the fuel-exhausted branch is
unreachable from the entry point.  Returns the records delivered to the
callback, in delivery order, and the terminal state. -/
def iterateAux : Nat → List Byte → List UTemplate × ScanState
  | _, [] => ([], ScanState.endReached)
  | 0, _ :: _ => ([], ScanState.corruption)
  | Nat.succ n, b :: bs =>
    match decodeRecord (b :: bs) with
    | none => ([], ScanState.corruption)
    | some (t, rest) =>
      let p := iterateAux n rest
      (t :: p.1, p.2)

/-- Modelled from the spec: `br_iterate_utemplates(begin, end, ...)` —
sequential scan of one buffer, callbacks in file order. -/
def iterateBuffer (bs : List Byte) : List UTemplate × ScanState :=
  iterateAux bs.length bs

/-- Modelled from the spec: `br_iterate_utemplates_file` with
`parallel = false` — the file contents are scanned sequentially exactly
as a buffer is. -/
def iterateFileSeq (bs : List Byte) : List UTemplate × ScanState :=
  iterateBuffer bs

/-- Modelled from the spec: `br_iterate_utemplates_file` with
`parallel = true` — phase 1 runs the full sequential indexing scan; only
if it succeeds is each indexed record dispatched exactly once to the
worker pool, with no ordering guarantee (hence a multiset); on any
corruption the whole operation aborts with zero dispatches. -/
def iterateFileParallel (bs : List Byte) : Multiset UTemplate × ScanState :=
  match iterateBuffer bs with
  | (ts, ScanState.endReached) => ((ts : Multiset UTemplate), ScanState.endReached)
  | (_, ScanState.corruption) => (0, ScanState.corruption)

/-- Modelled from the spec: `br_new_utemplate` in `universal_template.cpp`
(not under src/).  Builds a record from field values; when `url` is
present the URL bytes plus one zero terminator are written first and
`urlSize` counts the terminator, when absent `urlSize = 0` and `data`
starts directly with the feature vector; exactly `fvSize` bytes of the
feature vector are copied. -/
def br_new_utemplate (imageID : List Byte) (algorithmID : Int)
    (x y width height label : Nat) (url : Option (List Byte))
    (fv : List Byte) (fvSize : Nat) : UTemplate :=
  let urlBytes : List Byte :=
    match url with
    | none => []
    | some u => u ++ [(0 : Byte)]
  { imageID := imageID
  , algorithmID := algorithmID
  , x := x, y := y, width := width, height := height
  , label := label
  , urlSize := urlBytes.length
  , fvSize := fvSize
  , data := urlBytes ++ fv.take fvSize }

/-- An output stream: the bytes written so far, and whether the stream
still accepts writes (a closed, full or permission-denied stream does
not). -/
structure OutStream where
  written : List Byte
  healthy : Bool
  deriving DecidableEq, Repr

/-- The error surfaced to the caller when a stream rejects a write. -/
inductive AppendError where
  | ioFailure : AppendError
  deriving DecidableEq, Repr

/-- Modelled from the spec: the byte-level effect of `fwrite` as used by
`br_append_utemplate`: a healthy stream appends the bytes, an unhealthy
one rejects the write. -/
def fwriteBytes (s : OutStream) (bs : List Byte) : Except AppendError OutStream :=
  if s.healthy then Except.ok { s with written := s.written ++ bs }
  else Except.error AppendError.ioFailure

/-- Modelled from the spec: `br_append_utemplate` in
`universal_template.cpp` (not under src/) — one write of the record's
full byte image (header then payload, no framing), no retry; a rejected
write surfaces `IOFailure`. -/
def br_append_utemplate (s : OutStream) (t : UTemplate) : Except AppendError OutStream :=
  fwriteBytes s (encodeRecord t)

/-- The concrete record of the spec's worked scenario: zero `imageID`,
`algorithmID = 1`, ROI `(0, 0, 100, 100)`, `label = 7`, URL `"foo.jpg"`
with its terminator (`urlSize = 8`), feature vector `01 02 03`
(`fvSize = 3`). -/
def exampleRecord : UTemplate :=
  { imageID := List.replicate 16 0
  , algorithmID := 1
  , x := 0, y := 0, width := 100, height := 100
  , label := 7
  , urlSize := 8
  , fvSize := 3
  , data := [102, 111, 111, 46, 106, 112, 103, 0, 1, 2, 3] }

/-! ## Codec lemmas -/

theorem u32ToBytes_length (n : Nat) : (u32ToBytes n).length = 4 := rfl

theorem readU32_u32ToBytes (n : Nat) (hn : n < 4294967296) (rest : List Byte) :
    readU32 (u32ToBytes n ++ rest) = n := by
  simp only [u32ToBytes, List.cons_append, List.nil_append, readU32, bytesToU32]
  omega

theorem u32AsI32_i32AsU32 (a : Int) (h1 : -2147483648 ≤ a) (h2 : a < 2147483648) :
    u32AsI32 (i32AsU32 a) = a := by
  unfold u32AsI32 i32AsU32
  split <;> omega

theorem i32AsU32_lt (a : Int) : i32AsU32 a < 4294967296 := by
  unfold i32AsU32
  omega

/-- Dropping four bytes past a serialized `uint32`. -/
theorem drop4_u32 (n : Nat) (rest : List Byte) :
    (u32ToBytes n ++ rest).drop 4 = rest := rfl

theorem encodeRecord_length (t : UTemplate) (h : t.imageID.length = 16) :
    (encodeRecord t).length = fixedHeaderLength + t.data.length := by
  simp [encodeRecord, encodeHeader, u32ToBytes, fixedHeaderLength, h]
  omega

/-- The suffix of the serialized image starting at byte 16: the eight
integer fields followed by the payload and anything after the record. -/
theorem encodeRecord_drop16 (t : UTemplate) (h : t.imageID.length = 16)
    (rest : List Byte) :
    (encodeRecord t ++ rest).drop 16 =
      u32ToBytes (i32AsU32 t.algorithmID) ++ (u32ToBytes t.x ++ (u32ToBytes t.y ++
      (u32ToBytes t.width ++ (u32ToBytes t.height ++ (u32ToBytes t.label ++
      (u32ToBytes t.urlSize ++ (u32ToBytes t.fvSize ++ (t.data ++ rest)))))))) := by
  simp only [encodeRecord, encodeHeader, List.append_assoc]
  exact List.drop_left' h

theorem decodeRecord_encodeRecord (t : UTemplate) (ht : ValidRecord t)
    (rest : List Byte) :
    decodeRecord (encodeRecord t ++ rest) = some (t, rest) := by
  obtain ⟨h16, ha1, ha2, hx, hy, hw, hh, hl, hu, hf, hd⟩ := ht
  have hlen : (encodeRecord t ++ rest).length =
      fixedHeaderLength + t.data.length + rest.length := by
    simp [encodeRecord_length t h16]
  have d16 := encodeRecord_drop16 t h16 rest
  have d20 : (encodeRecord t ++ rest).drop 20 =
      u32ToBytes t.x ++ (u32ToBytes t.y ++ (u32ToBytes t.width ++
      (u32ToBytes t.height ++ (u32ToBytes t.label ++ (u32ToBytes t.urlSize ++
      (u32ToBytes t.fvSize ++ (t.data ++ rest))))))) := by
    rw [← List.drop_drop 4 16, d16, drop4_u32]
  have d24 : (encodeRecord t ++ rest).drop 24 =
      u32ToBytes t.y ++ (u32ToBytes t.width ++ (u32ToBytes t.height ++
      (u32ToBytes t.label ++ (u32ToBytes t.urlSize ++ (u32ToBytes t.fvSize ++
      (t.data ++ rest)))))) := by
    rw [← List.drop_drop 4 20, d20, drop4_u32]
  have d28 : (encodeRecord t ++ rest).drop 28 =
      u32ToBytes t.width ++ (u32ToBytes t.height ++ (u32ToBytes t.label ++
      (u32ToBytes t.urlSize ++ (u32ToBytes t.fvSize ++ (t.data ++ rest))))) := by
    rw [← List.drop_drop 4 24, d24, drop4_u32]
  have d32 : (encodeRecord t ++ rest).drop 32 =
      u32ToBytes t.height ++ (u32ToBytes t.label ++ (u32ToBytes t.urlSize ++
      (u32ToBytes t.fvSize ++ (t.data ++ rest)))) := by
    rw [← List.drop_drop 4 28, d28, drop4_u32]
  have d36 : (encodeRecord t ++ rest).drop 36 =
      u32ToBytes t.label ++ (u32ToBytes t.urlSize ++ (u32ToBytes t.fvSize ++
      (t.data ++ rest))) := by
    rw [← List.drop_drop 4 32, d32, drop4_u32]
  have d40 : (encodeRecord t ++ rest).drop 40 =
      u32ToBytes t.urlSize ++ (u32ToBytes t.fvSize ++ (t.data ++ rest)) := by
    rw [← List.drop_drop 4 36, d36, drop4_u32]
  have d44 : (encodeRecord t ++ rest).drop 44 =
      u32ToBytes t.fvSize ++ (t.data ++ rest) := by
    rw [← List.drop_drop 4 40, d40, drop4_u32]
  have d48 : (encodeRecord t ++ rest).drop 48 = t.data ++ rest := by
    rw [← List.drop_drop 4 44, d44, drop4_u32]
  have ru : readU32 ((encodeRecord t ++ rest).drop 40) = t.urlSize := by
    rw [d40, readU32_u32ToBytes _ hu]
  have rf : readU32 ((encodeRecord t ++ rest).drop 44) = t.fvSize := by
    rw [d44, readU32_u32ToBytes _ hf]
  unfold decodeRecord
  rw [ru, rf, hlen]
  rw [if_neg (by unfold fixedHeaderLength; omega),
      if_neg (by unfold fixedHeaderLength at *; omega)]
  congr 1
  have ht16 : (encodeRecord t ++ rest).take 16 = t.imageID := by
    simp only [encodeRecord, encodeHeader, List.append_assoc]
    exact List.take_left' h16
  have hdata : ((encodeRecord t ++ rest).drop 48).take (t.urlSize + t.fvSize)
      = t.data := by
    rw [d48, ← hd]
    exact List.take_left' rfl
  have hrest : (encodeRecord t ++ rest).drop
      (fixedHeaderLength + t.urlSize + t.fvSize) = rest := by
    have : fixedHeaderLength + t.urlSize + t.fvSize = 48 + t.data.length := by
      unfold fixedHeaderLength; omega
    rw [this, ← List.drop_drop t.data.length 48, d48, List.drop_left]
  cases t
  simp only [UTemplate.mk.injEq, Prod.mk.injEq]
  refine ⟨⟨ht16, ?_, ?_, ?_, ?_, ?_, ?_, trivial, trivial, hdata⟩, hrest⟩
  · rw [d16, readU32_u32ToBytes _ (i32AsU32_lt _)]
    exact u32AsI32_i32AsU32 _ ha1 ha2
  · rw [d20, readU32_u32ToBytes _ hx]
  · rw [d24, readU32_u32ToBytes _ hy]
  · rw [d28, readU32_u32ToBytes _ hw]
  · rw [d32, readU32_u32ToBytes _ hh]
  · rw [d36, readU32_u32ToBytes _ hl]

/-! ## Scanner lemmas -/

theorem iterateAux_nil (n : Nat) : iterateAux n [] = ([], ScanState.endReached) := by
  cases n <;> rfl

theorem decodeRecord_none_of_short (bs : List Byte)
    (h : bs.length < fixedHeaderLength + readU32 (bs.drop 40) + readU32 (bs.drop 44)) :
    decodeRecord bs = none := by
  unfold decodeRecord
  split
  · rfl
  · rw [if_pos (by omega)]

theorem decodeRecord_consumes (bs : List Byte) (t : UTemplate) (rest : List Byte)
    (h : decodeRecord bs = some (t, rest)) :
    rest.length + fixedHeaderLength ≤ bs.length := by
  unfold decodeRecord at h
  by_cases h1 : bs.length < fixedHeaderLength
  · rw [if_pos h1] at h
    exact absurd h (by simp)
  · rw [if_neg h1] at h
    dsimp only at h
    by_cases h2 : bs.length <
        fixedHeaderLength + readU32 (bs.drop 40) + readU32 (bs.drop 44)
    · rw [if_pos h2] at h
      exact absurd h (by simp)
    · rw [if_neg h2] at h
      simp only [Option.some.injEq, Prod.mk.injEq] at h
      rw [← h.2, List.length_drop]
      omega

theorem iterateAux_fuel (n : Nat) : ∀ (m : Nat) (bs : List Byte),
    bs.length ≤ n → bs.length ≤ m → iterateAux n bs = iterateAux m bs := by
  induction n with
  | zero =>
    intro m bs hn _
    have : bs = [] := List.eq_nil_of_length_eq_zero (Nat.le_zero.mp hn)
    subst this
    rw [iterateAux_nil, iterateAux_nil]
  | succ n ih =>
    intro m bs hn hm
    cases bs with
    | nil => rw [iterateAux_nil, iterateAux_nil]
    | cons b l =>
      obtain ⟨m', rfl⟩ : ∃ m', m = m' + 1 := by
        cases m
        · simp at hm
        · exact ⟨_, rfl⟩
      show (match decodeRecord (b :: l) with
            | none => ([], ScanState.corruption)
            | some (t, rest) =>
              let p := iterateAux n rest
              (t :: p.1, p.2)) =
           (match decodeRecord (b :: l) with
            | none => ([], ScanState.corruption)
            | some (t, rest) =>
              let p := iterateAux m' rest
              (t :: p.1, p.2))
      cases hdec : decodeRecord (b :: l) with
      | none => rfl
      | some p =>
        obtain ⟨t, rest⟩ := p
        have hcons := decodeRecord_consumes _ _ _ hdec
        unfold fixedHeaderLength at hcons
        simp only [List.length_cons] at hn hm hcons
        dsimp only
        rw [ih m' rest (by omega) (by omega)]

theorem iterateAux_corrupt (bs : List Byte) (hne : bs ≠ [])
    (h : bs.length < fixedHeaderLength + readU32 (bs.drop 40) + readU32 (bs.drop 44)) :
    ∀ n, iterateAux n bs = ([], ScanState.corruption) := by
  intro n
  cases bs with
  | nil => exact absurd rfl hne
  | cons b l =>
    cases n with
    | zero => rfl
    | succ n =>
      show (match decodeRecord (b :: l) with
            | none => ([], ScanState.corruption)
            | some (t, rest) =>
              let p := iterateAux n rest
              (t :: p.1, p.2)) = ([], ScanState.corruption)
      rw [decodeRecord_none_of_short _ h]

theorem iterateBuffer_corrupt (bs : List Byte) (hne : bs ≠ [])
    (h : bs.length < fixedHeaderLength + readU32 (bs.drop 40) + readU32 (bs.drop 44)) :
    iterateBuffer bs = ([], ScanState.corruption) :=
  iterateAux_corrupt bs hne h _

theorem iterateBuffer_nil : iterateBuffer [] = ([], ScanState.endReached) := rfl

/-- Scanning a stream of valid records followed by arbitrary trailing
bytes delivers exactly those records, in order, and then continues on the
trailing bytes. -/
theorem iterateBuffer_stream_append (ts : List UTemplate)
    (hv : ∀ t ∈ ts, ValidRecord t) (rest : List Byte) :
    iterateBuffer (encodeStream ts ++ rest) =
      (ts ++ (iterateBuffer rest).1, (iterateBuffer rest).2) := by
  induction ts with
  | nil =>
    simp only [encodeStream, List.map_nil, List.flatten_nil, List.nil_append]
  | cons t ts ih =>
    have hvt : ValidRecord t := hv t (List.mem_cons_self t ts)
    have hvts : ∀ u ∈ ts, ValidRecord u := fun u hu => hv u (List.mem_cons_of_mem t hu)
    have hstream : encodeStream (t :: ts) ++ rest =
        encodeRecord t ++ (encodeStream ts ++ rest) := by
      simp [encodeStream, List.append_assoc]
    rw [hstream]
    have hlen : (encodeRecord t).length = fixedHeaderLength + t.data.length :=
      encodeRecord_length t hvt.1
    obtain ⟨b, l, hbl⟩ : ∃ b l, encodeRecord t ++ (encodeStream ts ++ rest) = b :: l := by
      cases hcase : encodeRecord t ++ (encodeStream ts ++ rest) with
      | nil =>
        have := congrArg List.length hcase
        simp [hlen, fixedHeaderLength] at this
      | cons b l => exact ⟨b, l, rfl⟩
    unfold iterateBuffer
    rw [hbl]
    have hlcons : (b :: l).length = l.length + 1 := rfl
    rw [hlcons]
    show (match decodeRecord (b :: l) with
          | none => ([], ScanState.corruption)
          | some (u, rem) =>
            let p := iterateAux l.length rem
            (u :: p.1, p.2)) = _
    rw [← hbl, decodeRecord_encodeRecord t hvt]
    have hrem : (encodeStream ts ++ rest).length ≤ l.length := by
      have h2 := congrArg List.length hbl
      simp only [List.length_append, List.length_cons] at h2 ⊢
      unfold fixedHeaderLength at hlen
      omega
    dsimp only
    rw [iterateAux_fuel l.length (encodeStream ts ++ rest).length _ hrem le_rfl]
    rw [show iterateAux (encodeStream ts ++ rest).length (encodeStream ts ++ rest)
        = iterateBuffer (encodeStream ts ++ rest) from rfl, ih hvts]
    simp [iterateBuffer]

theorem encodeRecord_drop40 (t : UTemplate) (h : t.imageID.length = 16)
    (rest : List Byte) :
    (encodeRecord t ++ rest).drop 40 =
      u32ToBytes t.urlSize ++ (u32ToBytes t.fvSize ++ (t.data ++ rest)) := by
  rw [← List.drop_drop 24 16, encodeRecord_drop16 t h rest]
  rfl

theorem encodeRecord_drop44 (t : UTemplate) (h : t.imageID.length = 16)
    (rest : List Byte) :
    (encodeRecord t ++ rest).drop 44 =
      u32ToBytes t.fvSize ++ (t.data ++ rest) := by
  rw [← List.drop_drop 28 16, encodeRecord_drop16 t h rest]
  rfl

/-- Scanning a boundary-aligned concatenation of valid records delivers
exactly those records, in order, and terminates cleanly. -/
theorem iterateBuffer_stream (ts : List UTemplate)
    (hv : ∀ t ∈ ts, ValidRecord t) :
    iterateBuffer (encodeStream ts) = (ts, ScanState.endReached) := by
  have h := iterateBuffer_stream_append ts hv []
  simpa [iterateBuffer_nil] using h

/-- The serialized image of a single record is the one-record stream. -/
theorem encodeStream_singleton (t : UTemplate) :
    encodeStream [t] = encodeRecord t := by
  simp [encodeStream]

/-- A record produced by the builder from in-range inputs is well
formed. -/
theorem br_new_utemplate_valid (imageID : List Byte) (algorithmID : Int)
    (x y width height label : Nat) (url : Option (List Byte))
    (fv : List Byte) (fvSize : Nat)
    (h16 : imageID.length = 16)
    (ha1 : -2147483648 ≤ algorithmID) (ha2 : algorithmID < 2147483648)
    (hx : x < 4294967296) (hy : y < 4294967296) (hw : width < 4294967296)
    (hh : height < 4294967296) (hl : label < 4294967296)
    (hu : (match url with | none => 0 | some u => u.length + 1) < 4294967296)
    (hf : fvSize < 4294967296) (hfv : fvSize ≤ fv.length) :
    ValidRecord (br_new_utemplate imageID algorithmID x y width height label
      url fv fvSize) := by
  cases url with
  | none =>
    refine ⟨h16, ha1, ha2, hx, hy, hw, hh, hl, ?_, hf, ?_⟩
    · simp [br_new_utemplate]
    · simp [br_new_utemplate, List.length_take, Nat.min_eq_left hfv]
  | some u =>
    refine ⟨h16, ha1, ha2, hx, hy, hw, hh, hl, ?_, hf, ?_⟩
    · simpa [br_new_utemplate] using hu
    · simp [br_new_utemplate, List.length_take, Nat.min_eq_left hfv]
      omega

/-- A successful decode stays inside the buffer: the decoded record's
declared total size fits in the available bytes, and the scan resumes
exactly `totalRecordSize` bytes further — the sole mechanism locating the
next record. -/
theorem decodeRecord_props (bs : List Byte) (t : UTemplate) (rest : List Byte)
    (h : decodeRecord bs = some (t, rest)) :
    totalRecordSize t ≤ bs.length ∧ rest = bs.drop (totalRecordSize t) := by
  unfold decodeRecord at h
  by_cases h1 : bs.length < fixedHeaderLength
  · rw [if_pos h1] at h
    exact absurd h (by simp)
  · rw [if_neg h1] at h
    dsimp only at h
    by_cases h2 : bs.length <
        fixedHeaderLength + readU32 (bs.drop 40) + readU32 (bs.drop 44)
    · rw [if_pos h2] at h
      exact absurd h (by simp)
    · rw [if_neg h2] at h
      simp only [Option.some.injEq, Prod.mk.injEq] at h
      obtain ⟨ht, hr⟩ := h
      have hu : t.urlSize = readU32 (bs.drop 40) := by rw [← ht]
      have hf : t.fvSize = readU32 (bs.drop 44) := by rw [← ht]
      unfold totalRecordSize
      rw [hu, hf]
      exact ⟨by omega, hr.symm⟩

/-- For a valid record the serialized length is exactly
`totalRecordSize`. -/
theorem encodeRecord_length_valid (t : UTemplate) (ht : ValidRecord t) :
    (encodeRecord t).length = totalRecordSize t := by
  obtain ⟨h16, -, -, -, -, -, -, -, -, -, hd⟩ := ht
  rw [encodeRecord_length t h16, hd]
  unfold totalRecordSize fixedHeaderLength
  omega

/-- The length of a stream of valid records is the sum of their total
record sizes. -/
theorem encodeStream_length : ∀ ts : List UTemplate,
    (∀ t ∈ ts, ValidRecord t) →
    (encodeStream ts).length = (ts.map totalRecordSize).sum := by
  intro ts
  induction ts with
  | nil =>
    intro _
    simp [encodeStream]
  | cons t ts ih =>
    intro hv
    have hvt : ValidRecord t := hv t (List.mem_cons_self t ts)
    have hvts : ∀ u ∈ ts, ValidRecord u := fun u hu => hv u (List.mem_cons_of_mem t hu)
    simp only [encodeStream, List.map_cons, List.flatten_cons, List.length_append,
      List.sum_cons]
    rw [show ((ts.map encodeRecord).flatten).length = (encodeStream ts).length from rfl,
      ih hvts, encodeRecord_length_valid t hvt]

theorem encodeRecord_drop48 (t : UTemplate) (h : t.imageID.length = 16)
    (rest : List Byte) :
    (encodeRecord t ++ rest).drop 48 = t.data ++ rest := by
  rw [← List.drop_drop 32 16, encodeRecord_drop16 t h rest]
  rfl

/-! ## Claim theorems -/

/-- C9: iterating an empty input — `br_iterate_utemplates` with
`begin == end`, or `br_iterate_utemplates_file` on a file with zero
records, sequential or parallel — invokes the callback zero times and
terminates cleanly in `EndReached`. -/
theorem c9_empty_stream :
    iterateBuffer ([] : List Byte) = ([], ScanState.endReached) ∧
    iterateFileSeq ([] : List Byte) = ([], ScanState.endReached) ∧
    iterateFileParallel ([] : List Byte) = (0, ScanState.endReached) := by
  refine ⟨rfl, rfl, ?_⟩
  simp [iterateFileParallel, iterateBuffer_nil]

/-- C2: scanning a boundary-aligned concatenation of N valid records via
`br_iterate_utemplates` or `br_iterate_utemplates_file(parallel=false)`
invokes the callback exactly N times in file order (the result list is
exactly the record list); with `parallel=true` it invokes the callback
exactly once per record with no ordering constraint (the dispatched
multiset is exactly the records'). -/
theorem c2_exactly_once (ts : List UTemplate) (hv : ∀ t ∈ ts, ValidRecord t) :
    iterateBuffer (encodeStream ts) = (ts, ScanState.endReached) ∧
    iterateFileSeq (encodeStream ts) = (ts, ScanState.endReached) ∧
    iterateFileParallel (encodeStream ts) =
      ((ts : Multiset UTemplate), ScanState.endReached) ∧
    (iterateBuffer (encodeStream ts)).1.length = ts.length := by
  have h := iterateBuffer_stream ts hv
  refine ⟨h, h, ?_, by rw [h]⟩
  simp [iterateFileParallel, h]

/-- C2 witness: a concrete three-record stream is delivered exactly once,
in order, in both modes. -/
theorem c2_exactly_once_witness :
    iterateBuffer (encodeStream [exampleRecord, exampleRecord, exampleRecord]) =
      ([exampleRecord, exampleRecord, exampleRecord], ScanState.endReached) :=
  (c2_exactly_once [exampleRecord, exampleRecord, exampleRecord] (by decide)).1

/-- C4: the sequential scan fails with `Corruption` whenever fewer than
`fixedHeaderLength` bytes remain or the declared
`fixedHeaderLength + urlSize + fvSize` extends past the end (both cases
are `length < fixedHeaderLength + urlSize + fvSize`, as the sizes read
from a short buffer only widen the bound); and a successful decode stays
inside the buffer: the record's declared extent fits in the remaining
bytes and the scan resumes exactly at its end. -/
theorem c4_memory_safety (bs : List Byte) :
    (bs ≠ [] →
      bs.length < fixedHeaderLength + readU32 (bs.drop 40) + readU32 (bs.drop 44) →
      iterateBuffer bs = ([], ScanState.corruption)) ∧
    (∀ (t : UTemplate) (rest : List Byte), decodeRecord bs = some (t, rest) →
      totalRecordSize t ≤ bs.length ∧ rest = bs.drop (totalRecordSize t)) :=
  ⟨iterateBuffer_corrupt bs, fun t rest h => decodeRecord_props bs t rest h⟩

/-- C4 witness: a 10-byte buffer (shorter than the fixed header) is
rejected as corrupt with no record delivered. -/
theorem c4_memory_safety_witness :
    iterateBuffer (List.replicate 10 (0 : Byte)) = ([], ScanState.corruption) :=
  (c4_memory_safety (List.replicate 10 (0 : Byte))).1 (by decide) (by decide)

/-- C5: for every valid record `totalRecordSize =
fixedHeaderSize + urlSize + fvSize` is the serialized length, the next
record's start is located solely by advancing `totalRecordSize` bytes,
and the length of a concatenation of valid records is the sum of their
total record sizes. -/
theorem c5_exact_sizing :
    (∀ t : UTemplate, totalRecordSize t = fixedHeaderLength + t.urlSize + t.fvSize) ∧
    (∀ t : UTemplate, ValidRecord t → (encodeRecord t).length = totalRecordSize t) ∧
    (∀ (bs : List Byte) (t : UTemplate) (rest : List Byte),
      decodeRecord bs = some (t, rest) → rest = bs.drop (totalRecordSize t)) ∧
    (∀ ts : List UTemplate, (∀ t ∈ ts, ValidRecord t) →
      (encodeStream ts).length = (ts.map totalRecordSize).sum) :=
  ⟨fun _ => rfl,
   fun t ht => encodeRecord_length_valid t ht,
   fun bs t rest h => (decodeRecord_props bs t rest h).2,
   fun ts hv => encodeStream_length ts hv⟩

/-- C5 witness: the concrete example record has serialized length
`48 + 8 + 3 = 59`, its `totalRecordSize`. -/
theorem c5_exact_sizing_witness :
    ValidRecord exampleRecord ∧
    (encodeRecord exampleRecord).length = totalRecordSize exampleRecord :=
  ⟨by decide, c5_exact_sizing.2.1 exampleRecord (by decide)⟩

/-- C6: `br_iterate_utemplates_file(parallel=true)` dispatches to the
worker pool only what the completed sequential indexing pass found: if
the indexing scan succeeds the dispatched multiset is exactly its
records, and if any record is malformed the whole operation aborts with
`Corruption` and zero parallel callback invocations occur. -/
theorem c6_two_phase (bs : List Byte) :
    (∀ ts : List UTemplate, iterateBuffer bs = (ts, ScanState.endReached) →
      iterateFileParallel bs = ((ts : Multiset UTemplate), ScanState.endReached)) ∧
    ((iterateBuffer bs).2 = ScanState.corruption →
      iterateFileParallel bs = (0, ScanState.corruption)) := by
  constructor
  · intro ts h
    simp [iterateFileParallel, h]
  · intro h
    cases hscan : iterateBuffer bs with
    | mk ts st =>
      cases st with
      | endReached =>
        rw [hscan] at h
        exact absurd h (by simp)
      | corruption =>
        simp [iterateFileParallel, hscan]

/-- C6 witness: on a corrupt 20-byte stream the parallel mode performs
zero dispatches. -/
theorem c6_two_phase_witness :
    iterateFileParallel (List.replicate 20 (0 : Byte)) = (0, ScanState.corruption) :=
  (c6_two_phase (List.replicate 20 (0 : Byte))).2 (by decide)

/-- C7: `br_new_utemplate` with a present `url` sets
`urlSize = length(url) + 1` and writes the URL characters followed by one
zero terminator as the first `urlSize` bytes of `data`; with `url`
absent it sets `urlSize = 0` and `data` begins directly with the
`fvSize` feature-vector bytes. -/
theorem c7_builder_url_sizing (imageID : List Byte) (algorithmID : Int)
    (x y width height label : Nat) (fv : List Byte) (fvSize : Nat) :
    (∀ u : List Byte,
      (br_new_utemplate imageID algorithmID x y width height label
        (some u) fv fvSize).urlSize = u.length + 1 ∧
      (br_new_utemplate imageID algorithmID x y width height label
        (some u) fv fvSize).data = (u ++ [(0 : Byte)]) ++ fv.take fvSize ∧
      ((br_new_utemplate imageID algorithmID x y width height label
        (some u) fv fvSize).data).take (u.length + 1) = u ++ [(0 : Byte)]) ∧
    ((br_new_utemplate imageID algorithmID x y width height label
        none fv fvSize).urlSize = 0 ∧
     (br_new_utemplate imageID algorithmID x y width height label
        none fv fvSize).data = fv.take fvSize) := by
  refine ⟨fun u => ⟨?_, rfl, ?_⟩, rfl, rfl⟩
  · simp [br_new_utemplate]
  · show ((u ++ [(0 : Byte)]) ++ fv.take fvSize).take (u.length + 1)
        = u ++ [(0 : Byte)]
    exact List.take_left' (by simp)

/-- C8: `br_append_utemplate` writes exactly the record's full byte
image — fixed header then the `urlSize + fvSize` payload — with no
additional framing, in a single unretried write; a stream that rejects
the write surfaces `IOFailure`. -/
theorem c8_serializer_contract (s : OutStream) (t : UTemplate) :
    encodeRecord t = encodeHeader t ++ t.data ∧
    (s.healthy = true →
      br_append_utemplate s t =
        Except.ok { s with written := s.written ++ (encodeHeader t ++ t.data) }) ∧
    (s.healthy = false →
      br_append_utemplate s t = Except.error AppendError.ioFailure) := by
  refine ⟨rfl, ?_, ?_⟩
  · intro h
    simp [br_append_utemplate, fwriteBytes, h, encodeRecord]
  · intro h
    simp [br_append_utemplate, fwriteBytes, h]

/-- C8 witness: appending the example record to a healthy stream writes
exactly its byte image; an unhealthy stream yields `IOFailure`. -/
theorem c8_serializer_contract_witness :
    br_append_utemplate ⟨[], true⟩ exampleRecord =
      Except.ok ⟨[] ++ (encodeHeader exampleRecord ++ exampleRecord.data), true⟩ ∧
    br_append_utemplate ⟨[], false⟩ exampleRecord =
      Except.error AppendError.ioFailure :=
  ⟨(c8_serializer_contract ⟨[], true⟩ exampleRecord).2.1 rfl,
   (c8_serializer_contract ⟨[], false⟩ exampleRecord).2.2 rfl⟩

/-- C10: the fixed header occupies exactly 48 bytes — the 16-byte
`imageID` followed by the eight 4-byte integers in declaration order with
no padding — the payload begins at byte offset 48, and the total
serialized size is `48 + urlSize + fvSize`. -/
theorem c10_fixed_header_48 (t : UTemplate) (ht : ValidRecord t) :
    fixedHeaderLength = 48 ∧
    (encodeHeader t).length = 48 ∧
    encodeHeader t =
      t.imageID ++ (u32ToBytes (i32AsU32 t.algorithmID) ++ (u32ToBytes t.x ++
      (u32ToBytes t.y ++ (u32ToBytes t.width ++ (u32ToBytes t.height ++
      (u32ToBytes t.label ++ (u32ToBytes t.urlSize ++ u32ToBytes t.fvSize))))))) ∧
    (encodeRecord t).drop 48 = t.data ∧
    (encodeRecord t).length = 48 + t.urlSize + t.fvSize := by
  refine ⟨rfl, ?_, ?_, ?_, ?_⟩
  · simp [encodeHeader, u32ToBytes, ht.1]
  · simp [encodeHeader, List.append_assoc]
  · have h := encodeRecord_drop48 t ht.1 []
    simpa using h
  · rw [encodeRecord_length_valid t ht]
    rfl

/-- C10 witness: the example record's header is 48 bytes and its image
is 59 = 48 + 8 + 3 bytes with the payload at offset 48. -/
theorem c10_fixed_header_48_witness :
    ValidRecord exampleRecord ∧
    (encodeHeader exampleRecord).length = 48 ∧
    (encodeRecord exampleRecord).length = 48 + 8 + 3 :=
  ⟨by decide, (c10_fixed_header_48 exampleRecord (by decide)).2.1,
   (c10_fixed_header_48 exampleRecord (by decide)).2.2.2.2⟩

/-- C3: truncating the final byte of the last record's payload in a valid
two-record buffer makes the sequential scan deliver only the first record
and terminate in `Corruption`; the callback is never invoked for the
truncated record, and no shortened record is delivered. -/
theorem c3_truncation_failfast (r1 r2 : UTemplate)
    (h1 : ValidRecord r1) (h2 : ValidRecord r2)
    (hpay : 0 < r2.urlSize + r2.fvSize) :
    iterateBuffer (encodeRecord r1 ++ (encodeRecord r2).dropLast) =
      ([r1], ScanState.corruption) := by
  obtain ⟨h16, -, -, -, -, -, -, -, hu32, hf32, hd⟩ := h2
  have hlen2 : (encodeRecord r2).length = 48 + r2.data.length := by
    have h := encodeRecord_length r2 h16
    unfold fixedHeaderLength at h
    exact h
  have hdpos : 0 < r2.data.length := by omega
  have hrlen : ((encodeRecord r2).dropLast).length = 47 + r2.data.length := by
    rw [List.length_dropLast, hlen2]
    omega
  have hne : (encodeRecord r2).dropLast ≠ [] := by
    intro hc
    rw [hc] at hrlen
    simp only [List.length_nil] at hrlen
    omega
  have htake : (encodeRecord r2).dropLast =
      (encodeRecord r2).take (47 + r2.data.length) := by
    rw [List.dropLast_eq_take, hlen2,
      show 48 + r2.data.length - 1 = 47 + r2.data.length from by omega]
  have hX40 : (encodeRecord r2).drop 40 =
      u32ToBytes r2.urlSize ++ (u32ToBytes r2.fvSize ++ r2.data) := by
    have h := encodeRecord_drop40 r2 h16 []
    simpa using h
  have hX44 : (encodeRecord r2).drop 44 =
      u32ToBytes r2.fvSize ++ r2.data := by
    have h := encodeRecord_drop44 r2 h16 []
    simpa using h
  have h40 : readU32 (((encodeRecord r2).dropLast).drop 40) = r2.urlSize := by
    rw [htake, List.drop_take, hX40]
    rw [show 47 + r2.data.length - 40 = 7 + r2.data.length from by omega]
    rw [List.take_append_eq_append_take,
      List.take_of_length_le (by simp [u32ToBytes]; omega)]
    exact readU32_u32ToBytes _ hu32 _
  have h44 : readU32 (((encodeRecord r2).dropLast).drop 44) = r2.fvSize := by
    rw [htake, List.drop_take, hX44]
    rw [show 47 + r2.data.length - 44 = 3 + r2.data.length from by omega]
    rw [List.take_append_eq_append_take,
      List.take_of_length_le (by simp [u32ToBytes]; omega)]
    exact readU32_u32ToBytes _ hf32 _
  have hcor : iterateBuffer ((encodeRecord r2).dropLast) = ([], ScanState.corruption) := by
    apply iterateBuffer_corrupt _ hne
    rw [h40, h44, hrlen]
    unfold fixedHeaderLength
    omega
  have happ := iterateBuffer_stream_append [r1] (by simpa using h1)
    ((encodeRecord r2).dropLast)
  rw [encodeStream_singleton] at happ
  rw [happ, hcor]
  simp

/-- C3 witness: duplicating the example record and deleting the last
payload byte of the second copy yields exactly one delivered record and a
`Corruption` terminal state. -/
theorem c3_truncation_failfast_witness :
    iterateBuffer (encodeRecord exampleRecord ++
        (encodeRecord exampleRecord).dropLast) =
      ([exampleRecord], ScanState.corruption) :=
  c3_truncation_failfast exampleRecord exampleRecord (by decide) (by decide)
    (by decide)

/-- C1: building a record with `br_new_utemplate` from a 16-byte imageID,
signed 32-bit algorithmID, ROI quadruple, label, optional URL and an
`fvSize`-byte feature vector, appending it with `br_append_utemplate`,
and decoding the written bytes with `br_iterate_utemplates` yields
exactly one record whose every field — imageID, algorithmID, x, y,
width, height, label, urlSize, fvSize, URL bytes including terminator,
and feature-vector bytes — equals the original inputs byte for byte. -/
theorem c1_round_trip (imageID : List Byte) (algorithmID : Int)
    (x y width height label : Nat) (url : Option (List Byte))
    (fv : List Byte) (fvSize : Nat)
    (h16 : imageID.length = 16)
    (ha1 : -2147483648 ≤ algorithmID) (ha2 : algorithmID < 2147483648)
    (hx : x < 4294967296) (hy : y < 4294967296) (hw : width < 4294967296)
    (hh : height < 4294967296) (hl : label < 4294967296)
    (hu : (match url with | none => 0 | some u => u.length + 1) < 4294967296)
    (hf : fvSize < 4294967296) (hfv : fv.length = fvSize) :
    ∃ s : OutStream,
      br_append_utemplate ⟨[], true⟩
        (br_new_utemplate imageID algorithmID x y width height label url fv fvSize)
        = Except.ok s ∧
      ∃ t : UTemplate,
        iterateBuffer s.written = ([t], ScanState.endReached) ∧
        t.imageID = imageID ∧
        t.algorithmID = algorithmID ∧
        t.x = x ∧ t.y = y ∧ t.width = width ∧ t.height = height ∧
        t.label = label ∧
        t.urlSize = (match url with | none => 0 | some u => u.length + 1) ∧
        t.fvSize = fvSize ∧
        t.data = (match url with | none => [] | some u => u ++ [(0 : Byte)]) ++ fv := by
  have hvalid : ValidRecord
      (br_new_utemplate imageID algorithmID x y width height label url fv fvSize) :=
    br_new_utemplate_valid imageID algorithmID x y width height label url fv fvSize
      h16 ha1 ha2 hx hy hw hh hl hu hf (le_of_eq hfv.symm)
  have htakefv : fv.take fvSize = fv := List.take_of_length_le (le_of_eq hfv)
  refine ⟨⟨encodeRecord (br_new_utemplate imageID algorithmID x y width height
      label url fv fvSize), true⟩, ?_, br_new_utemplate imageID algorithmID x y
      width height label url fv fvSize, ?_, rfl, rfl, rfl, rfl, rfl, rfl, rfl,
      ?_, rfl, ?_⟩
  · simp [br_append_utemplate, fwriteBytes]
  · show iterateBuffer (encodeRecord (br_new_utemplate imageID algorithmID x y
        width height label url fv fvSize)) = (_, ScanState.endReached)
    rw [← encodeStream_singleton]
    exact iterateBuffer_stream _ (by simpa using hvalid)
  · cases url with
    | none => rfl
    | some u => simp [br_new_utemplate]
  · cases url with
    | none =>
      show ([] : List Byte) ++ fv.take fvSize = [] ++ fv
      rw [htakefv]
    | some u =>
      show (u ++ [(0 : Byte)]) ++ fv.take fvSize = (u ++ [(0 : Byte)]) ++ fv
      rw [htakefv]

/-- C1 witness: the spec's concrete scenario — zero imageID,
algorithmID 1, ROI (0, 0, 100, 100), label 7, URL "foo.jpg", feature
vector 01 02 03 — round-trips through construct, append and the buffer
scan byte for byte. -/
theorem c1_round_trip_witness :
    ∃ s : OutStream,
      br_append_utemplate ⟨[], true⟩
        (br_new_utemplate (List.replicate 16 0) 1 0 0 100 100 7
          (some [102, 111, 111, 46, 106, 112, 103]) [1, 2, 3] 3)
        = Except.ok s ∧
      ∃ t : UTemplate,
        iterateBuffer s.written = ([t], ScanState.endReached) ∧
        t.imageID = List.replicate 16 0 ∧
        t.algorithmID = 1 ∧
        t.x = 0 ∧ t.y = 0 ∧ t.width = 100 ∧ t.height = 100 ∧
        t.label = 7 ∧
        t.urlSize = (match some [(102 : Byte), 111, 111, 46, 106, 112, 103] with
          | none => 0 | some u => u.length + 1) ∧
        t.fvSize = 3 ∧
        t.data = (match some [(102 : Byte), 111, 111, 46, 106, 112, 103] with
          | none => [] | some u => u ++ [(0 : Byte)]) ++ [1, 2, 3] :=
  c1_round_trip (List.replicate 16 0) 1 0 0 100 100 7
    (some [102, 111, 111, 46, 106, 112, 103]) [1, 2, 3] 3
    (by decide) (by decide) (by decide) (by decide) (by decide) (by decide)
    (by decide) (by decide) (by decide) (by decide) (by decide)
